import Mathlib

/-!
Shallow embedding of the rrm ROM auditor (src/src/db.rs, src/src/main.rs,
src/src/util.rs).  Row types mirror the record structs of db.rs; the SQL
store is modelled as lists of rows plus a fresh rowid counter.  INSERT
statements append a row, DELETE statements drop the rows selected by the
WHERE clause, and SELECT queries become filters.  Foreign keys are not
enforced in this model: a DELETE removes exactly the rows its WHERE clause
selects.  Where SQLite with PRAGMA foreign_keys = ON would instead abort a
statement, this is noted at the relevant theorem; either reading settles
the affected claims the same way.
-/

namespace Rrm

/-- Match classification (db.rs MatchStatus), persisted as the strings
hash, name, match. -/
inductive MatchStatus where
  | Hash
  | Name
  | Match
deriving DecidableEq

/-- Row of the dats table (db.rs DatRecord). -/
structure DatRecord where
  id : Nat
  name : String
  description : String
  version : String
  author : String
  hash_type : String
deriving DecidableEq

/-- Row of the sets table (db.rs SetRecord). -/
structure SetRecord where
  id : Nat
  dat_id : Nat
  name : String
deriving DecidableEq

/-- Row of the roms table (db.rs RomRecord); size is the u64 exposed at the
boundary, hash the stored hash string. -/
structure RomRecord where
  id : Nat
  dat_id : Nat
  set_id : Nat
  name : String
  size : Nat
  hash : String
deriving DecidableEq

/-- Row of the dirs table (db.rs DirRecord). -/
structure DirRecord where
  id : Nat
  dat_id : Nat
  path : String
  parent_id : Option Nat
deriving DecidableEq

/-- Row of the files table, post-migration schema (db.rs FileRecord). -/
structure FileRecord where
  id : Nat
  dat_id : Nat
  dir_id : Nat
  name : String
  size : Nat
  hash : String
deriving DecidableEq

/-- Row of the matches table (db.rs MatchRecord). -/
structure MatchRecord where
  id : Nat
  dat_id : Nat
  file_id : Nat
  status : MatchStatus
  set_id : Nat
  rom_id : Nat
deriving DecidableEq

/-- The persistent index: one list per relation plus the next fresh rowid.
The matches relation is named matchRows because matches is reserved in
Lean. -/
structure Store where
  dats : List DatRecord
  sets : List SetRecord
  roms : List RomRecord
  dirs : List DirRecord
  files : List FileRecord
  matchRows : List MatchRecord
  nextId : Nat
deriving DecidableEq

/-! ## Ordering used by ORDER BY name

SQLite compares VARCHAR columns with the BINARY collation, i.e. by UTF-8
bytes; UTF-8 byte order coincides with code point order, modelled here as
lexicographic order on the code points of the string. -/

/-- Lexicographic order on code points (SQLite BINARY collation). -/
def charLe : List Char → List Char → Bool
  | [], _ => true
  | _ :: _, [] => false
  | a :: as, b :: bs =>
    if a.toNat < b.toNat then true
    else if b.toNat < a.toNat then false
    else charLe as bs

def strLe (a b : String) : Bool := charLe a.data b.data

/-- Insert into a list sorted by le (model of the ORDER BY clause). -/
def insertSorted (le : α → α → Bool) (a : α) : List α → List α
  | [] => [a]
  | b :: bs => if le a b then a :: b :: bs else b :: insertSorted le a bs

/-- Sort a result set (model of the ORDER BY clause). -/
def sortBy (le : α → α → Bool) (l : List α) : List α :=
  l.foldr (insertSorted le) []

/-! ## SQLite LIKE

The non-exact branch of find_by_name runs name LIKE (percent ++ query ++
percent).  SQLite LIKE treats the percent sign as any sequence, the
underscore as any single character, and compares the remaining characters
ASCII-case-insensitively. -/

/-- Lower-case an ASCII upper-case letter, identity otherwise. -/
def lowerChar (c : Char) : Char :=
  if 'A' ≤ c ∧ c ≤ 'Z' then Char.ofNat (c.toNat + 32) else c

/-- Does f accept some suffix of the list (used for the percent wildcard). -/
def anySuffix (f : List Char → Bool) : List Char → Bool
  | [] => f []
  | c :: ts => f (c :: ts) || anySuffix f ts

/-- SQLite LIKE pattern matching over code points. -/
def likeMatch : List Char → List Char → Bool
  | [], t => t.isEmpty
  | p :: ps, t =>
    if p = '%' then anySuffix (likeMatch ps) t
    else if p = '_' then
      match t with
      | [] => false
      | _ :: ts => likeMatch ps ts
    else
      match t with
      | [] => false
      | c :: ts => (lowerChar p == lowerChar c) && likeMatch ps ts

/-- The pattern built by find_by_name: percent ++ query ++ percent. -/
def likePattern (q : String) : List Char := '%' :: (q.data ++ ['%'])

/-- Does the pattern list start the text list, ASCII-case-insensitively. -/
def leadsCI : List Char → List Char → Bool
  | [], _ => true
  | _ :: _, [] => false
  | p :: ps, c :: ts => (lowerChar p == lowerChar c) && leadsCI ps ts

/-- Some suffix of the text starts with q, ASCII-case-insensitively: the
text contains q as a substring up to ASCII case. -/
def containsCI (q t : List Char) : Bool := anySuffix (leadsCI q) t

/-- Does the pattern list start the text list, case-sensitively. -/
def leadsCS : List Char → List Char → Bool
  | [], _ => true
  | _ :: _, [] => false
  | p :: ps, c :: ts => (p == c) && leadsCS ps ts

/-- The text contains q as a substring, case-sensitively. -/
def containsCS (q t : List Char) : Bool := anySuffix (leadsCS q) t

/-- The query contains no LIKE metacharacter. -/
def noMeta (q : List Char) : Prop := ∀ c ∈ q, c ≠ '%' ∧ c ≠ '_'

instance (q : List Char) : Decidable (noMeta q) := by
  unfold noMeta; infer_instance

/-! ## find_by_name (db.rs FindableByName and FileRecord.find_by_name)

Both implementations run, over their scope column (dat_id for sets and
roms, dir_id for files):
  exact:      WHERE scope = s AND name = q ORDER BY name
  non-exact:  WHERE scope = s AND name LIKE (percent q percent) ORDER BY name
modelled generically over the scope and name projections. -/

def findByNameG (scopeOf : α → Nat) (nameOf : α → String)
    (recs : List α) (scope : Nat) (q : String) (exact : Bool) : List α :=
  if exact then
    sortBy (fun a b => strLe (nameOf a) (nameOf b))
      (recs.filter fun r => scopeOf r == scope && nameOf r == q)
  else
    sortBy (fun a b => strLe (nameOf a) (nameOf b))
      (recs.filter fun r => scopeOf r == scope && likeMatch (likePattern q) (nameOf r).data)

def SetRecord.find_by_name (recs : List SetRecord) (dat : Nat) (name : String) (exact : Bool) : List SetRecord :=
  findByNameG (fun r => r.dat_id) (fun r => r.name) recs dat name exact

def RomRecord.find_by_name (recs : List RomRecord) (dat : Nat) (name : String) (exact : Bool) : List RomRecord :=
  findByNameG (fun r => r.dat_id) (fun r => r.name) recs dat name exact

def FileRecord.find_by_name (recs : List FileRecord) (dir : Nat) (name : String) (exact : Bool) : List FileRecord :=
  findByNameG (fun r => r.dir_id) (fun r => r.name) recs dir name exact

/-- db.rs RomRecord.get_by_hash: WHERE dat_id = d AND hash = h, no ORDER BY. -/
def RomRecord.get_by_hash (roms : List RomRecord) (dat : Nat) (hash : String) : List RomRecord :=
  roms.filter fun r => r.dat_id == dat && r.hash == hash

/-! ## The matcher (main.rs match_roms, match_exact, match_names,
match_hashes)

The matcher is pure apart from its two store queries, which become
arguments of the rom table; matched_sets is the BTreeSet of set ids of
main.rs, modelled as a list queried only through isEmpty and contains. -/

/-- main.rs FileMatch. -/
structure FileMatch where
  status : MatchStatus
  set_id : Nat
  rom_id : Nat
deriving DecidableEq

/-- main.rs match_exact: keep name candidates allowed by matched_sets whose
size and hash both agree, one Match entry each; None when that is empty. -/
def match_exact (file_size : Nat) (hash : String) (matched_sets : List Nat)
    (named_roms : List RomRecord) : Option (List FileMatch) :=
  let ms :=
    ((named_roms.filter fun rom => matched_sets.isEmpty || matched_sets.contains rom.set_id).filter
        fun rom => file_size == rom.size && hash == rom.hash).map
      fun rom => { status := MatchStatus.Match, set_id := rom.set_id, rom_id := rom.id }
  if ms.isEmpty then none else some ms

/-- main.rs match_names: one Name entry per name candidate allowed by
matched_sets; None when that is empty. -/
def match_names (matched_sets : List Nat) (named_roms : List RomRecord) : Option (List FileMatch) :=
  let ms :=
    (named_roms.filter fun rom => matched_sets.isEmpty || matched_sets.contains rom.set_id).map
      fun rom => { status := MatchStatus.Name, set_id := rom.set_id, rom_id := rom.id }
  if ms.isEmpty then none else some ms

/-- main.rs match_hashes: one Hash entry per hash candidate allowed by
matched_sets; None when that is empty. -/
def match_hashes (matched_sets : List Nat) (hash_roms : List RomRecord) : Option (List FileMatch) :=
  let ms :=
    (hash_roms.filter fun rom => matched_sets.isEmpty || matched_sets.contains rom.set_id).map
      fun rom => { status := MatchStatus.Hash, set_id := rom.set_id, rom_id := rom.id }
  if ms.isEmpty then none else some ms

/-- main.rs match_roms: name candidates by exact find_by_name; if any and an
exact match exists return it; otherwise fetch hash candidates and, when they
are empty, fall back to name-only matches, else hash-only matches. -/
def match_roms (roms : List RomRecord) (dat : Nat) (filename : String)
    (file_size : Nat) (hash : String) (matched_sets : List Nat) : Option (List FileMatch) :=
  let named_roms := RomRecord.find_by_name roms dat filename true
  match (if named_roms.isEmpty then none
         else match_exact file_size hash matched_sets named_roms) with
  | some ms => some ms
  | none =>
    let hash_roms := RomRecord.get_by_hash roms dat hash
    if hash_roms.isEmpty then match_names matched_sets named_roms
    else match_hashes matched_sets hash_roms

/-! ## Store mutations shared by scan, import, update and remove -/

/-- db.rs DirRecord.get_by_dat_path: at most one row by the UNIQUE(path,
dat_id) constraint. -/
def get_by_dat_path (s : Store) (dat : Nat) (path : String) : Option DirRecord :=
  s.dirs.find? fun d => d.path == path && d.dat_id == dat

/-- db.rs FileRecord.delete_files: DELETE FROM files WHERE dir_id = d. -/
def delete_files_of_dir (s : Store) (dirId : Nat) : Store :=
  { s with files := s.files.filter fun f => f.dir_id != dirId }

/-- db.rs Insertable.insert for dirs. -/
def insertDir (s : Store) (dat : Nat) (path : String) (parent : Option Nat) : Store × Nat :=
  ({ s with dirs := s.dirs ++ [{ id := s.nextId, dat_id := dat, path := path, parent_id := parent }],
            nextId := s.nextId + 1 }, s.nextId)

/-- db.rs Insertable.insert for files. -/
def insertFile (s : Store) (dat : Nat) (dirId : Nat) (name : String) (size : Nat)
    (hash : String) : Store × FileRecord :=
  let f : FileRecord := { id := s.nextId, dat_id := dat, dir_id := dirId,
                          name := name, size := size, hash := hash }
  ({ s with files := s.files ++ [f], nextId := s.nextId + 1 }, f)

/-- db.rs Insertable.insert for matches. -/
def insertMatch (s : Store) (dat : Nat) (fileId : Nat) (item : FileMatch) : Store :=
  { s with
    matchRows := s.matchRows ++ [{ id := s.nextId, dat_id := dat, file_id := fileId,
                                   status := item.status, set_id := item.set_id,
                                   rom_id := item.rom_id }],
    nextId := s.nextId + 1 }

/-- main.rs insert_matches: run the matcher on the stored file attributes
and insert one match row per returned item. -/
def insert_matches (s : Store) (dat : Nat) (f : FileRecord) (matched_sets : List Nat) : Store :=
  match match_roms s.roms dat f.name f.size f.hash matched_sets with
  | none => s
  | some items => items.foldl (fun st item => insertMatch st dat f.id item) s

/-- main.rs insert_files_and_matches. -/
def insert_files_and_matches (s : Store) (dat : Nat) (dirId : Nat) (name : String)
    (size : Nat) (hash : String) (matched_sets : List Nat) : Store :=
  let (s1, f) := insertFile s dat dirId name size hash
  insert_matches s1 dat f matched_sets

/-- main.rs delete_dat: for every dir owned by the dat delete its files,
then DELETE dirs, roms, sets and the dat row, all by dat_id.  No statement
touches the matches relation. -/
def delete_dat (s : Store) (dat : Nat) : Store :=
  let datDirs := s.dirs.filter fun d => d.dat_id == dat
  let s1 := { s with files := s.files.filter fun f => ¬ datDirs.any fun d => d.id == f.dir_id }
  { s1 with dirs := s1.dirs.filter fun d => d.dat_id != dat,
            roms := s1.roms.filter fun r => r.dat_id != dat,
            sets := s1.sets.filter fun st => st.dat_id != dat,
            dats := s1.dats.filter fun d => d.id != dat }

/-! ## Path helpers (camino Utf8Path as consumed by main.rs)

Only the file-name component, its extension and its prefix are consumed:
extension for the exclude and zip checks, file_prefix by match_sets. -/

/-- Characters after the last slash (the file-name component; empty when
the path ends in a slash). -/
def lastComponent (s : List Char) : List Char :=
  s.foldl (fun acc c => if c = '/' then [] else acc ++ [c]) []

/-- Characters after the last dot (used only when a dot is present). -/
def afterLastDot (l : List Char) : List Char :=
  l.foldl (fun acc c => if c = '.' then [] else acc ++ [c]) []

/-- Characters before the first dot. -/
def untilFirstDot : List Char → List Char
  | [] => []
  | c :: cs => if c = '.' then [] else c :: untilFirstDot cs

/-- Utf8Path.extension: the part of the file name after its last dot; a
single leading dot does not start an extension. -/
def extOf (path : String) : Option String :=
  match lastComponent path.data with
  | [] => none
  | _ :: rest => if rest.contains '.' then some ⟨afterLastDot rest⟩ else none

/-- Utf8Path.file_prefix: the file name up to its first dot, where a leading
dot belongs to the name. -/
def stemOf? (path : String) : Option String :=
  match lastComponent path.data with
  | [] => none
  | c0 :: rest => some ⟨c0 :: untilFirstDot rest⟩

/-- str.eq_ignore_ascii_case. -/
def eqIgnoreAsciiCase (a b : String) : Bool :=
  a.data.map lowerChar == b.data.map lowerChar

/-- The exclude-list check of main.rs applied to a file name: true when the
name has an extension that matches an excluded extension ASCII-case-
insensitively. -/
def isExcluded (exclude : List String) (name : String) : Bool :=
  match extOf name with
  | none => false
  | some ext => exclude.any fun e => eqIgnoreAsciiCase ext e

/-- main.rs match_sets: sets of the dat whose name equals the file prefix
of the path (exact find_by_name); the BTreeSet of their ids is modelled as
the id list.  None models the context error when the path has no file
name. -/
def match_sets (sets : List SetRecord) (dat : Nat) (path : String) : Option (List Nat) :=
  (stemOf? path).map fun name =>
    (SetRecord.find_by_name sets dat name true).map fun r => r.id

/-! ## The size encoding (db.rs SizeWrapper)

to_sql renders the u64 as its decimal string; from_sql parses the string
back with str.parse::<u64>, which accepts an optional leading plus sign
followed by ASCII digits and fails on anything else or on overflow past
the u64 range. -/

def U64SIZE : Nat := 2 ^ 64

/-- One step of the checked decimal accumulation of str.parse::<u64>. -/
def parseU64Step (acc : Option Nat) (c : Char) : Option Nat :=
  acc.bind fun n =>
    if c.isDigit then
      let v := n * 10 + (c.toNat - 48)
      if v < U64SIZE then some v else none
    else none

/-- str.parse::<u64> on the stored string: strip one leading plus sign,
then reject the empty string and accumulate checked decimal digits. -/
def parseU64 (s : String) : Option Nat :=
  let cs := match s.data with
    | c :: rest => if c = '+' then rest else c :: rest
    | [] => []
  if cs.isEmpty then none else cs.foldl parseU64Step (some 0)

/-- u64 Display: the decimal digit characters, most significant first
(Nat.digits is least-significant-first, hence the reverse). -/
def sizeToSql (n : Nat) : String :=
  if n = 0 then "0"
  else ⟨((Nat.digits 10 n).map fun d => Char.ofNat (48 + d)).reverse⟩

/-- The unchecked decimal accumulation over a most-significant-first digit
list, used to state what the checked parse fold computes. -/
def valFold (a : Nat) (ds : List Nat) : Nat :=
  ds.foldl (fun x d => x * 10 + d) a

/-! ## The catalog ingester (main.rs parse_dat_file, import_dat, update_dat)

The XML document is abstracted to what parse_dat_file consumes: the header
element with its child elements (tag and optional text), the game elements
with their name attribute, and the descendant rom elements with their
name, size and sha1 attributes.  Non-element children of the header carry
an empty tag name in roxmltree and fall into the wildcard arm, so they are
dropped from the model.  In the source the inserts run inside the import
transaction and any later parse failure rolls the transaction back, which
is the same as parsing first and inserting only on full success, as
modelled here. -/

/-- A child element of the header: tag name and optional text content. -/
structure XmlHeaderChild where
  tag : String
  text : Option String
deriving DecidableEq

/-- A rom element: the three attributes read by parse_dat_file. -/
structure XmlRom where
  name : Option String
  size : Option String
  sha1 : Option String
deriving DecidableEq

/-- A game element: its name attribute and its descendant rom elements. -/
structure XmlGame where
  name : Option String
  roms : List XmlRom
deriving DecidableEq

/-- The parsed document: the header element when present, and the game
children of the root. -/
structure XmlDoc where
  header : Option (List XmlHeaderChild)
  games : List XmlGame
deriving DecidableEq

/-- The four header fields accumulated by the header loop of
parse_dat_file. -/
structure HeaderAcc where
  name : Option String
  description : Option String
  version : Option String
  author : Option String
deriving DecidableEq

/-- One iteration of the header loop: on a matching tag the field is
overwritten with the text of the node, which may itself be absent. -/
def headerStep (acc : HeaderAcc) (c : XmlHeaderChild) : HeaderAcc :=
  if c.tag = "name" then { acc with name := c.text }
  else if c.tag = "description" then { acc with description := c.text }
  else if c.tag = "version" then { acc with version := c.text }
  else if c.tag = "author" then { acc with author := c.text }
  else acc

def parseHeaderFields (children : List XmlHeaderChild) : HeaderAcc :=
  children.foldl headerStep { name := none, description := none, version := none, author := none }

/-- The data inserted for one rom: name, parsed size and the hash string
taken verbatim from the sha1 attribute. -/
structure ParsedRom where
  name : String
  size : Nat
  hash : String
deriving DecidableEq

structure ParsedGame where
  name : String
  roms : List ParsedRom
deriving DecidableEq

/-- The rom loop body: all three attributes are required and the size must
parse as a decimal u64; the hash is the attribute string unchanged. -/
def parseRomNode (r : XmlRom) : Option ParsedRom := do
  let n ← r.name
  let szs ← r.size
  let h ← r.sha1
  let sz ← parseU64 szs
  pure { name := n, size := sz, hash := h }

def parseRoms : List XmlRom → Option (List ParsedRom)
  | [] => some []
  | r :: rs => do
    let pr ← parseRomNode r
    let rest ← parseRoms rs
    pure (pr :: rest)

/-- The game loop body: the name attribute is required. -/
def parseGameNode (g : XmlGame) : Option ParsedGame := do
  let n ← g.name
  let roms ← parseRoms g.roms
  pure { name := n, roms := roms }

def parseGames : List XmlGame → Option (List ParsedGame)
  | [] => some []
  | g :: gs => do
    let pg ← parseGameNode g
    let rest ← parseGames gs
    pure (pg :: rest)

/-- main.rs parse_dat_file without the store writes: missing header element
or any missing required header field fails before the dat insert; game and
rom failures abort the enclosing transaction. -/
def parse_dat_file (doc : XmlDoc) : Option (DatRecord × List ParsedGame) :=
  match doc.header with
  | none => none
  | some children =>
    let acc := parseHeaderFields children
    match acc.name with
    | none => none
    | some n =>
      match acc.description with
      | none => none
      | some d =>
        match acc.version with
        | none => none
        | some v =>
          match acc.author with
          | none => none
          | some a =>
            match parseGames doc.games with
            | none => none
            | some games =>
              some ({ id := 0, name := n, description := d, version := v,
                      author := a, hash_type := "sha1" }, games)

/-- The rom INSERT of parse_dat_file: a fresh rom row whose hash is the
parsed hash string. -/
def insertRomRow (datId setId : Nat) (st : Store) (pr : ParsedRom) : Store :=
  { st with roms := st.roms ++ [{ id := st.nextId, dat_id := datId, set_id := setId,
                                  name := pr.name, size := pr.size, hash := pr.hash }],
            nextId := st.nextId + 1 }

/-- The per-game inserts of parse_dat_file: a fresh set row, then one rom
row per parsed rom of the game. -/
def insertGameRows (datId : Nat) (st : Store) (g : ParsedGame) : Store :=
  let setId := st.nextId
  let st1 := { st with sets := st.sets ++ [{ id := setId, dat_id := datId, name := g.name }],
                       nextId := setId + 1 }
  g.roms.foldl (insertRomRow datId setId) st1

/-- The inserts of parse_dat_file: the dat row, then per game a set row and
its rom rows, with fresh surrogate ids. -/
def insertParsed (s : Store) (dat : DatRecord) (games : List ParsedGame) : Store × Nat :=
  let datId := s.nextId
  let s0 := { s with dats := s.dats ++ [{ dat with id := datId }], nextId := datId + 1 }
  (games.foldl (insertGameRows datId) s0, datId)

/-- main.rs import_dat: parse inside one transaction; on any failure the
transaction is rolled back and the store is unchanged (None). -/
def importDat (s : Store) (doc : XmlDoc) : Option (Store × Nat) :=
  (parse_dat_file doc).map fun pd => insertParsed s pd.1 pd.2

/-- db.rs DirRecord.relink_dirs: UPDATE dirs SET dat_id = new WHERE
dat_id = old. -/
def relink_dirs (s : Store) (oldDat newDat : Nat) : Store :=
  { s with dirs := s.dirs.map fun d => if d.dat_id == oldDat then { d with dat_id := newDat } else d }

/-- db.rs MatchRecord.delete_by_dat. -/
def delete_matches_by_dat (s : Store) (dat : Nat) : Store :=
  { s with matchRows := s.matchRows.filter fun m => m.dat_id != dat }

/-- db.rs FileRecord.get_by_dir: WHERE dir_id = d ORDER BY name. -/
def get_files_of_dir (s : Store) (dirId : Nat) : List FileRecord :=
  sortBy (fun a b => strLe a.name b.name) (s.files.filter fun f => f.dir_id == dirId)

/-- main.rs update_dat: import the new dat, delete the matches of the old
dat, re-match the files of every zip dir of the old dat against the new dat
restricted by its matched set names, relink all dirs of the old dat to the
new dat, commit, and finally delete the old dat.  None models a rolled
back failed import (store unchanged) or a missing file name in a stored
zip path. -/
def update_dat (s : Store) (doc : XmlDoc) (oldDat : Nat) : Option (Store × Nat) := do
  let (s1, newDat) ← importDat s doc
  let s2 := delete_matches_by_dat s1 oldDat
  let oldDirs := s2.dirs.filter fun d => d.dat_id == oldDat
  let s3 ← oldDirs.foldlM (fun (st : Store) dir =>
    if (extOf dir.path).any (fun e => eqIgnoreAsciiCase e ("zip")) then do
      let matched ← match_sets st.sets newDat dir.path
      pure ((get_files_of_dir st dir.id).foldl
        (fun st2 f => insert_matches st2 newDat f matched) st)
    else pure st) s2
  let s4 := relink_dirs s3 oldDat newDat
  pure (delete_dat s4 oldDat, newDat)

/-! ## Archive scanning (main.rs scan_zip_file and its savepoint framing)

scan_zip_file runs against the savepoint connection; its error sources are
the zip open, a member read error from by_index, and an I/O error while
hashing a member.  They are modelled as data: a zip source either fails to
open or yields a member list, a member either fails to read (none) or
yields its name, kind and, when hashing succeeds, hash and byte count.
The function returns the store as mutated so far together with the result,
so that the savepoint wrapper in scan_directory can be seen to discard the
partial writes on error. -/

/-- A readable archive member: name as stored, whether it is a file entry,
and the hash and size when hashing succeeds (none models the I/O error of
calc_hash). -/
structure ZipEntryData where
  name : String
  isFile : Bool
  content : Option (String × Nat)
deriving DecidableEq

/-- by_index result: none is a member read error, which aborts the archive. -/
abbrev ZipMember := Option ZipEntryData

/-- The archive itself: failure of ZipArchive::new, or the member list. -/
inductive ZipSource where
  | failOpen
  | archive (members : List ZipMember)
deriving DecidableEq

/-- The member loop of scan_zip_file: directories are skipped, excluded
extensions are skipped, a read or hash failure aborts with the rows written
so far, and every hashed file is inserted with its matches. -/
def scanZipMembers (dat dirId : Nat) (exclude : List String) (matched : List Nat) :
    List ZipMember → Store → Nat → Store × Except Unit Nat
  | [], s, count => (s, Except.ok count)
  | none :: _, s, _ => (s, Except.error ())
  | some m :: rest, s, count =>
    if m.isFile then
      if isExcluded exclude m.name then scanZipMembers dat dirId exclude matched rest s count
      else
        match m.content with
        | none => (s, Except.error ())
        | some (hash, size) =>
          scanZipMembers dat dirId exclude matched rest
            (insert_files_and_matches s dat dirId m.name size hash matched) (count + 1)
    else scanZipMembers dat dirId exclude matched rest s count

/-- main.rs scan_zip_file, run on the savepoint connection: skip an already
scanned archive on incremental scans, otherwise wipe or create the archive
dir, compute the matched sets from the archive stem, open the archive and
scan its members.  The returned store carries every row written up to an
error. -/
def scan_zip_file_raw (s : Store) (dat : Nat) (path : String) (incremental : Bool)
    (exclude : List String) (parentId : Nat) (zip : ZipSource) : Store × Except Unit Nat :=
  let maybeDir := get_by_dat_path s dat path
  if incremental && maybeDir.isSome then (s, Except.ok 0)
  else
    let (s1, dirId) :=
      match maybeDir with
      | some dir => (delete_files_of_dir s dir.id, dir.id)
      | none => insertDir s dat path (some parentId)
    match match_sets s1.sets dat path with
    | none => (s1, Except.error ())
    | some matched =>
      match zip with
      | ZipSource.failOpen => (s1, Except.error ())
      | ZipSource.archive members => scanZipMembers dat dirId exclude matched members s1 0

/-- The zip branch of main.rs scan_directory: run scan_zip_file under a
savepoint, commit it on success, roll it back on error and keep going. -/
def scan_zip_step (s : Store) (dat : Nat) (path : String) (incremental : Bool)
    (exclude : List String) (parentId : Nat) (zip : ZipSource) : Store × Nat :=
  match scan_zip_file_raw s dat path incremental exclude parentId zip with
  | (s1, Except.ok n) => (s1, n)
  | (_, Except.error _) => (s, 0)

/-- A zip entry of the enclosing directory walk: its path and its archive
content. -/
structure ZipJob where
  path : String
  zip : ZipSource
deriving DecidableEq

/-- The walk over the sibling zip entries of one directory, accumulating
the outer transaction state and the scanned-file counter. -/
def scan_zip_entries (dat : Nat) (incremental : Bool) (exclude : List String) (parentId : Nat) :
    List ZipJob → Store → Nat → Store × Nat
  | [], s, count => (s, count)
  | j :: rest, s, count =>
    let r := scan_zip_step s dat j.path incremental exclude parentId j.zip
    scan_zip_entries dat incremental exclude parentId rest r.1 (count + r.2)

/-! ## Referential integrity (spec section 8)

For all matches m: m.file.dir.dat = m.dat = m.set.dat = m.rom.dat and
m.rom.set = m.set. -/

/-- Decidable form of the referential-integrity invariant over the store. -/
def refIntegrityB (s : Store) : Bool :=
  s.matchRows.all fun m =>
    (s.files.any fun f => f.id == m.file_id &&
       (s.dirs.any fun d => d.id == f.dir_id && d.dat_id == m.dat_id)) &&
    (s.sets.any fun st => st.id == m.set_id && st.dat_id == m.dat_id) &&
    (s.roms.any fun r => r.id == m.rom_id && r.dat_id == m.dat_id && r.set_id == m.set_id)

/-! ## Definitions taken from the words of the spec, for refinement claims

These two do not model source code; they render the spec sentences that
claims C4 and C5 assert about the source, so that the source behaviour can
be compared against them. -/

/-- Modelled from the spec words of C4: find_by_name with exact = false
returns exactly the records whose name contains the query as a substring
under case-sensitive comparison, ordered by name ascending. -/
def findByNameSpecCS (scopeOf : α → Nat) (nameOf : α → String)
    (recs : List α) (scope : Nat) (q : String) : List α :=
  sortBy (fun a b => strLe (nameOf a) (nameOf b))
    (recs.filter fun r => scopeOf r == scope && containsCS q.data (nameOf r).data)

/-- Modelled from the spec words of C5: the lowercase-normalized form of a
hash attribute. -/
def lowerNormalized (h : String) : String := ⟨h.data.map lowerChar⟩

/-! ## Concrete inputs used by counterexamples and witnesses -/

def emptyStore : Store :=
  { dats := [], sets := [], roms := [], dirs := [], files := [], matchRows := [], nextId := 0 }

/-- Field presence in the header: some child with this tag has text. -/
def presentB (cs : List XmlHeaderChild) (t : String) : Bool :=
  cs.any fun c => c.tag == t && c.text.isSome

/-- Two roms for C1: rom 1 named a with hash h1 in set 1, rom 2 named b
with hash h2 in set 2, both in dat 1. -/
def romsC1 : List RomRecord :=
  [{ id := 1, dat_id := 1, set_id := 1, name := "a", size := 1, hash := "h1" },
   { id := 2, dat_id := 1, set_id := 2, name := "b", size := 1, hash := "h2" }]

/-- A store for C2 holding one dat with one set, rom, dir, file and match. -/
def storeC2 : Store :=
  { dats := [{ id := 1, name := "D", description := "d", version := "1", author := "a", hash_type := "sha1" }],
    sets := [{ id := 10, dat_id := 1, name := "G" }],
    roms := [{ id := 20, dat_id := 1, set_id := 10, name := "R.bin", size := 3, hash := "h" }],
    dirs := [{ id := 30, dat_id := 1, path := "/p", parent_id := none }],
    files := [{ id := 40, dat_id := 1, dir_id := 30, name := "R.bin", size := 3, hash := "h" }],
    matchRows := [{ id := 50, dat_id := 1, file_id := 40, status := MatchStatus.Match, set_id := 10, rom_id := 20 }],
    nextId := 51 }

/-- A store for C3, same shape as storeC2 with different rows. -/
def storeC3 : Store :=
  { dats := [{ id := 2, name := "E", description := "e", version := "2", author := "b", hash_type := "sha1" }],
    sets := [{ id := 11, dat_id := 2, name := "H" }],
    roms := [{ id := 21, dat_id := 2, set_id := 11, name := "S.bin", size := 4, hash := "g" }],
    dirs := [{ id := 31, dat_id := 2, path := "/q", parent_id := none }],
    files := [{ id := 41, dat_id := 2, dir_id := 31, name := "T.bin", size := 4, hash := "g" }],
    matchRows := [{ id := 51, dat_id := 2, file_id := 41, status := MatchStatus.Hash, set_id := 11, rom_id := 21 }],
    nextId := 52 }

/-- One set row with an upper-case name, for the C4 counterexample. -/
def setsC4 : List SetRecord := [{ id := 1, dat_id := 1, name := "ABC" }]

/-- A catalog document whose single rom carries an upper-case sha1
attribute, for C5. -/
def docC5 : XmlDoc :=
  { header := some [{ tag := "name", text := some ("X") },
                    { tag := "description", text := some ("d") },
                    { tag := "version", text := some ("1") },
                    { tag := "author", text := some ("a") }],
    games := [{ name := some ("G"), roms := [{ name := some ("R"), size := some ("3"), sha1 := some ("ABCD") }] }] }

/-- The store produced by importing docC5 into the empty store. -/
def storeC5out : Store :=
  { dats := [{ id := 0, name := "X", description := "d", version := "1", author := "a", hash_type := "sha1" }],
    sets := [{ id := 1, dat_id := 0, name := "G" }],
    roms := [{ id := 2, dat_id := 0, set_id := 1, name := "R", size := 3, hash := "ABCD" }],
    dirs := [], files := [], matchRows := [], nextId := 3 }

/-- The rom row produced by importing docC5. -/
def romC5 : RomRecord := { id := 2, dat_id := 0, set_id := 1, name := "R", size := 3, hash := "ABCD" }

/-- A catalog document whose header lacks the author child, for C8. -/
def docC8 : XmlDoc :=
  { header := some [{ tag := "name", text := some ("X") },
                    { tag := "description", text := some ("d") },
                    { tag := "version", text := some ("1") }],
    games := [] }

/-- A store used to exercise insert_files_and_matches: one dat with one
set, rom and dir and no files yet. -/
def storeIns : Store :=
  { dats := [{ id := 1, name := "D", description := "d", version := "1", author := "a", hash_type := "sha1" }],
    sets := [{ id := 10, dat_id := 1, name := "G" }],
    roms := [{ id := 20, dat_id := 1, set_id := 10, name := "R.bin", size := 3, hash := "h" }],
    dirs := [{ id := 30, dat_id := 1, path := "/p", parent_id := none }],
    files := [], matchRows := [], nextId := 40 }

/-- A store used to exercise update_dat: one dat whose only dir is a zip
archive holding one matched file. -/
def storeUpd : Store :=
  { dats := [{ id := 1, name := "D", description := "d", version := "1", author := "a", hash_type := "sha1" }],
    sets := [{ id := 10, dat_id := 1, name := "G" }],
    roms := [{ id := 20, dat_id := 1, set_id := 10, name := "R.bin", size := 3, hash := "h" }],
    dirs := [{ id := 30, dat_id := 1, path := "/x/G.zip", parent_id := none }],
    files := [{ id := 40, dat_id := 1, dir_id := 30, name := "R.bin", size := 3, hash := "h" }],
    matchRows := [{ id := 50, dat_id := 1, file_id := 40, status := MatchStatus.Match, set_id := 10, rom_id := 20 }],
    nextId := 51 }

/-- A new catalog version with the same set and rom, fed to update_dat. -/
def docUpd : XmlDoc :=
  { header := some [{ tag := ("name"), text := some ("D") },
                    { tag := ("description"), text := some ("d") },
                    { tag := ("version"), text := some ("2") },
                    { tag := ("author"), text := some ("a") }],
    games := [{ name := some ("G"), roms := [{ name := some ("R.bin"), size := some ("3"), sha1 := some ("h") }] }] }

/-- A store for C9: one set named G1 in dat 1 and nothing else. -/
def storeC9 : Store :=
  { dats := [], sets := [{ id := 1, dat_id := 1, name := "G1" }], roms := [],
    dirs := [], files := [], matchRows := [], nextId := 100 }

/-- An archive for C9 whose first member scans and whose second member
fails to read: the raw scan writes rows and then errors. -/
def zipC9 : ZipSource :=
  ZipSource.archive [some { name := "R.bin", isFile := true, content := some ("h", 3) }, none]

/-! # Lemmas about the ordering and sorting model -/

theorem mem_insertSorted (le : α → α → Bool) (a x : α) :
    ∀ l : List α, x ∈ insertSorted le a l ↔ x = a ∨ x ∈ l := by
  intro l
  induction l with
  | nil => simp [insertSorted]
  | cons b bs ih =>
    by_cases h : le a b
    · simp [insertSorted, h]
    · simp [insertSorted, h, ih]
      tauto

theorem mem_sortBy (le : α → α → Bool) (x : α) :
    ∀ l : List α, x ∈ sortBy le l ↔ x ∈ l := by
  intro l
  induction l with
  | nil => simp [sortBy]
  | cons b bs ih =>
    have : sortBy le (b :: bs) = insertSorted le b (sortBy le bs) := rfl
    rw [this, mem_insertSorted]
    simp [ih]

theorem pairwise_insertSorted (le : α → α → Bool)
    (htot : ∀ x y, le x y = true ∨ le y x = true)
    (htrans : ∀ x y z, le x y = true → le y z = true → le x z = true) (a : α) :
    ∀ l : List α, l.Pairwise (fun x y => le x y = true) →
      (insertSorted le a l).Pairwise (fun x y => le x y = true) := by
  intro l
  induction l with
  | nil => intro _; simp [insertSorted]
  | cons b bs ih =>
    intro hp
    rcases List.pairwise_cons.mp hp with ⟨hb, hbs⟩
    by_cases h : le a b
    · show List.Pairwise _ (if le a b then a :: b :: bs else _)
      rw [if_pos h]
      refine List.pairwise_cons.mpr ⟨?_, hp⟩
      intro y hy
      rcases List.mem_cons.mp hy with rfl | hy2
      · exact h
      · exact htrans a b y h (hb y hy2)
    · show List.Pairwise _ (if le a b then _ else b :: insertSorted le a bs)
      rw [if_neg h]
      refine List.pairwise_cons.mpr ⟨?_, ih hbs⟩
      intro y hy
      rcases (mem_insertSorted le a y bs).mp hy with rfl | hy2
      · rcases htot y b with hyb | hby
        · exact absurd hyb h
        · exact hby
      · exact hb y hy2

theorem pairwise_sortBy (le : α → α → Bool)
    (htot : ∀ x y, le x y = true ∨ le y x = true)
    (htrans : ∀ x y z, le x y = true → le y z = true → le x z = true) :
    ∀ l : List α, (sortBy le l).Pairwise (fun x y => le x y = true) := by
  intro l
  induction l with
  | nil => simp [sortBy]
  | cons b bs ih => exact pairwise_insertSorted le htot htrans b (sortBy le bs) ih

theorem charLe_total : ∀ x y : List Char, charLe x y = true ∨ charLe y x = true := by
  intro x
  induction x with
  | nil => intro y; left; rfl
  | cons a as ih =>
    intro y
    cases y with
    | nil => right; rfl
    | cons b bs =>
      simp only [charLe]
      rcases Nat.lt_trichotomy a.toNat b.toNat with h | h | h
      · left; simp [h]
      · have h1 : ¬ a.toNat < b.toNat := by omega
        have h2 : ¬ b.toNat < a.toNat := by omega
        simp only [if_neg h1, if_neg h2]
        exact ih bs
      · right; simp [h]

theorem charLe_trans :
    ∀ x y z : List Char, charLe x y = true → charLe y z = true → charLe x z = true := by
  intro x
  induction x with
  | nil => intro y z _ _; rfl
  | cons a as ih =>
    intro y z
    cases y with
    | nil => intro h1; simp [charLe] at h1
    | cons b bs =>
      cases z with
      | nil => intro _ h2; simp [charLe] at h2
      | cons c cs =>
        simp only [charLe]
        intro h1 h2
        rcases Nat.lt_trichotomy a.toNat b.toNat with hab | hab | hab
        · rcases Nat.lt_trichotomy b.toNat c.toNat with hbc | hbc | hbc
          · simp [show a.toNat < c.toNat by omega]
          · simp [show a.toNat < c.toNat by omega]
          · rw [if_neg (by omega : ¬ b.toNat < c.toNat), if_pos (by omega : c.toNat < b.toNat)] at h2
            exact absurd h2 (by simp)
        · rcases Nat.lt_trichotomy b.toNat c.toNat with hbc | hbc | hbc
          · simp [show a.toNat < c.toNat by omega]
          · rw [if_neg (by omega : ¬ a.toNat < b.toNat), if_neg (by omega : ¬ b.toNat < a.toNat)] at h1
            rw [if_neg (by omega : ¬ b.toNat < c.toNat), if_neg (by omega : ¬ c.toNat < b.toNat)] at h2
            rw [if_neg (by omega : ¬ a.toNat < c.toNat), if_neg (by omega : ¬ c.toNat < a.toNat)]
            exact ih bs cs h1 h2
          · rw [if_neg (by omega : ¬ b.toNat < c.toNat), if_pos (by omega : c.toNat < b.toNat)] at h2
            exact absurd h2 (by simp)
        · rw [if_neg (by omega : ¬ a.toNat < b.toNat), if_pos (by omega : b.toNat < a.toNat)] at h1
          exact absurd h1 (by simp)

theorem strLe_total : ∀ x y : String, strLe x y = true ∨ strLe y x = true := by
  intro x y; exact charLe_total x.data y.data

theorem strLe_trans :
    ∀ x y z : String, strLe x y = true → strLe y z = true → strLe x z = true := by
  intro x y z; exact charLe_trans x.data y.data z.data

/-! # Lemmas about the LIKE model -/

theorem anySuffix_congr (f g : List Char → Bool) (h : ∀ t, f t = g t) :
    ∀ t, anySuffix f t = anySuffix g t := by
  intro t
  induction t with
  | nil => simp [anySuffix, h]
  | cons c ts ih => simp [anySuffix, h, ih]

theorem anySuffix_likeMatch_nil : ∀ t, anySuffix (likeMatch []) t = true := by
  intro t
  induction t with
  | nil => rfl
  | cons c ts ih => simp [anySuffix, ih]

theorem likeMatch_lit (ps : List Char) (hps : noMeta ps) :
    ∀ t, likeMatch (ps ++ ['%']) t = leadsCI ps t := by
  induction ps with
  | nil =>
    intro t
    show likeMatch ['%'] t = leadsCI [] t
    simp only [likeMatch, leadsCI, if_true]
    exact anySuffix_likeMatch_nil t
  | cons p ps2 ih =>
    intro t
    have hp := hps p (by simp)
    have hps2 : noMeta ps2 := fun c hc => hps c (by simp [hc])
    cases t with
    | nil =>
      show likeMatch (p :: (ps2 ++ ['%'])) [] = leadsCI (p :: ps2) []
      simp only [likeMatch, leadsCI]
      rw [if_neg hp.1, if_neg hp.2]
    | cons c ts =>
      show likeMatch (p :: (ps2 ++ ['%'])) (c :: ts) = leadsCI (p :: ps2) (c :: ts)
      simp only [likeMatch, leadsCI]
      rw [if_neg hp.1, if_neg hp.2, ih hps2 ts]

theorem likeMatch_pattern (q : List Char) (hq : noMeta q) (t : List Char) :
    likeMatch ('%' :: (q ++ ['%'])) t = containsCI q t := by
  show likeMatch ('%' :: (q ++ ['%'])) t = containsCI q t
  simp only [likeMatch, if_true]
  unfold containsCI
  exact anySuffix_congr _ _ (likeMatch_lit q hq) t

theorem mem_findByNameG (scopeOf : α → Nat) (nameOf : α → String) (recs : List α)
    (scope : Nat) (q : String) (hq : noMeta q.data) (r : α) :
    r ∈ findByNameG scopeOf nameOf recs scope q false ↔
      r ∈ recs ∧ scopeOf r = scope ∧ containsCI q.data (nameOf r).data = true := by
  unfold findByNameG
  simp only [Bool.false_eq_true, if_false]
  rw [mem_sortBy, List.mem_filter]
  unfold likePattern
  constructor
  · rintro ⟨hmem, hpred⟩
    simp only [Bool.and_eq_true] at hpred
    rcases hpred with ⟨hsc, hlike⟩
    refine ⟨hmem, by simpa using hsc, ?_⟩
    rw [← likeMatch_pattern q.data hq]
    exact hlike
  · rintro ⟨hmem, hsc, hci⟩
    refine ⟨hmem, ?_⟩
    simp only [Bool.and_eq_true]
    refine ⟨by simpa using hsc, ?_⟩
    rw [likeMatch_pattern q.data hq]
    exact hci

/-! # Lemmas about the matcher -/

theorem mem_find_by_name_exact (roms : List RomRecord) (dat : Nat) (fn : String)
    (r : RomRecord) (h : r ∈ RomRecord.find_by_name roms dat fn true) :
    r ∈ roms ∧ r.dat_id = dat ∧ r.name = fn := by
  unfold RomRecord.find_by_name findByNameG at h
  rw [if_pos rfl] at h
  rw [mem_sortBy, List.mem_filter] at h
  rcases h with ⟨hmem, hpred⟩
  simp only [Bool.and_eq_true, beq_iff_eq] at hpred
  exact ⟨hmem, hpred.1, hpred.2⟩

theorem match_exact_sound (sz : Nat) (h : String) (sets : List Nat) (rs : List RomRecord)
    (ms : List FileMatch) (hms : match_exact sz h sets rs = some ms)
    (m : FileMatch) (hm : m ∈ ms) :
    m.status = MatchStatus.Match ∧
      ∃ r, r ∈ rs ∧ r.set_id = m.set_id ∧ r.id = m.rom_id ∧ sz = r.size ∧ h = r.hash ∧
        (sets ≠ [] → sets.contains m.set_id = true) := by
  unfold match_exact at hms
  dsimp only at hms
  split at hms
  · exact absurd hms (by simp)
  · rcases Option.some_injective _ hms with rfl
    rcases List.mem_map.mp hm with ⟨r, hr, hfm⟩
    rcases List.mem_filter.mp hr with ⟨hr1, hp2⟩
    rcases List.mem_filter.mp hr1 with ⟨hr0, hp1⟩
    simp only [Bool.and_eq_true, beq_iff_eq] at hp2
    subst hfm
    refine ⟨rfl, r, hr0, rfl, rfl, hp2.1, hp2.2, ?_⟩
    intro hne
    simp only [Bool.or_eq_true] at hp1
    rcases hp1 with hemp | hcon
    · exact absurd (List.isEmpty_iff.mp hemp) hne
    · exact hcon

theorem match_names_status (sets : List Nat) (rs : List RomRecord) (ms : List FileMatch)
    (hms : match_names sets rs = some ms) (m : FileMatch) (hm : m ∈ ms) :
    m.status = MatchStatus.Name := by
  unfold match_names at hms
  dsimp only at hms
  split at hms
  · exact absurd hms (by simp)
  · rcases Option.some_injective _ hms with rfl
    rcases List.mem_map.mp hm with ⟨r, _, hfm⟩
    subst hfm
    rfl

theorem match_hashes_status (sets : List Nat) (rs : List RomRecord) (ms : List FileMatch)
    (hms : match_hashes sets rs = some ms) (m : FileMatch) (hm : m ∈ ms) :
    m.status = MatchStatus.Hash := by
  unfold match_hashes at hms
  dsimp only at hms
  split at hms
  · exact absurd hms (by simp)
  · rcases Option.some_injective _ hms with rfl
    rcases List.mem_map.mp hm with ⟨r, _, hfm⟩
    subst hfm
    rfl

theorem match_exact_status (sz : Nat) (h : String) (sets : List Nat) (rs : List RomRecord)
    (ms : List FileMatch) (hms : match_exact sz h sets rs = some ms)
    (m : FileMatch) (hm : m ∈ ms) : m.status = MatchStatus.Match :=
  (match_exact_sound sz h sets rs ms hms m hm).1

/-- The three shapes a successful matcher result can have: it is exactly
the output of one of the three classification helpers, with the uniform
status of that helper. -/
theorem match_roms_shape (roms : List RomRecord) (dat : Nat) (fn : String) (sz : Nat)
    (h : String) (sets : List Nat) (ms : List FileMatch)
    (hms : match_roms roms dat fn sz h sets = some ms) :
    (match_exact sz h sets (RomRecord.find_by_name roms dat fn true) = some ms ∧
       ∀ m ∈ ms, m.status = MatchStatus.Match) ∨
    (match_names sets (RomRecord.find_by_name roms dat fn true) = some ms ∧
       ∀ m ∈ ms, m.status = MatchStatus.Name) ∨
    (match_hashes sets (RomRecord.get_by_hash roms dat h) = some ms ∧
       ∀ m ∈ ms, m.status = MatchStatus.Hash) := by
  unfold match_roms at hms
  dsimp only at hms
  split at hms
  case h_1 ms0 heq =>
    rcases Option.some_injective _ hms with rfl
    split at heq
    · exact absurd heq (by simp)
    · exact Or.inl ⟨heq, fun m hm => match_exact_status sz h sets _ ms0 heq m hm⟩
  case h_2 heq =>
    split at hms
    · exact Or.inr (Or.inl ⟨hms, fun m hm => match_names_status sets _ ms hms m hm⟩)
    · exact Or.inr (Or.inr ⟨hms, fun m hm => match_hashes_status sets _ ms hms m hm⟩)

/-! # Claim C6: exactness of matches with status exact -/

/-- C6: every entry of a matcher result that carries status exact comes
from the exact branch, which yields one entry per name candidate surviving
the allowed-sets filter with equal size and hash; the referenced rom has
the file size and hash, and when allowed_sets is non-empty the set of the
entry lies in allowed_sets. -/
theorem c6_match_exactness (roms : List RomRecord) (dat : Nat) (filename : String)
    (file_size : Nat) (hash : String) (sets : List Nat) (ms : List FileMatch) (m : FileMatch)
    (hms : match_roms roms dat filename file_size hash sets = some ms)
    (hm : m ∈ ms) (hstatus : m.status = MatchStatus.Match) :
    match_exact file_size hash sets (RomRecord.find_by_name roms dat filename true) = some ms ∧
    ∃ r, r ∈ roms ∧ r.id = m.rom_id ∧ r.set_id = m.set_id ∧ r.dat_id = dat ∧ r.name = filename ∧
      file_size = r.size ∧ hash = r.hash ∧ (sets ≠ [] → sets.contains m.set_id = true) := by
  rcases match_roms_shape roms dat filename file_size hash sets ms hms with
    ⟨hex, _⟩ | ⟨_, hall⟩ | ⟨_, hall⟩
  · rcases match_exact_sound file_size hash sets _ ms hex m hm with
      ⟨_, r, hrmem, hset, hid, hsz, hhash, hcon⟩
    rcases mem_find_by_name_exact roms dat filename r hrmem with ⟨hr, hrdat, hrname⟩
    exact ⟨hex, r, hr, hid, hset, hrdat, hrname, hsz, hhash, hcon⟩
  · rw [hall m hm] at hstatus
    exact absurd hstatus (by decide)
  · rw [hall m hm] at hstatus
    exact absurd hstatus (by decide)

/-- C6 witness: a one-rom catalog matched exactly. -/
theorem c6_match_exactness_witness :
    match_exact 1 ("h") ([] : List Nat)
        (RomRecord.find_by_name
          [{ id := 1, dat_id := 1, set_id := 1, name := ("a"), size := 1, hash := ("h") }] 1 ("a") true) =
      some [{ status := MatchStatus.Match, set_id := 1, rom_id := 1 }] ∧
    ∃ r, r ∈ ([{ id := 1, dat_id := 1, set_id := 1, name := ("a"), size := 1, hash := ("h") }] : List RomRecord) ∧
      r.id = 1 ∧ r.set_id = 1 ∧ r.dat_id = 1 ∧ r.name = ("a") ∧
      (1 : Nat) = r.size ∧ ("h" : String) = r.hash ∧
      (([] : List Nat) ≠ [] → List.contains ([] : List Nat) (1 : Nat) = true) :=
  c6_match_exactness
    [{ id := 1, dat_id := 1, set_id := 1, name := ("a"), size := 1, hash := ("h") }]
    1 ("a") 1 ("h") [] [{ status := MatchStatus.Match, set_id := 1, rom_id := 1 }]
    { status := MatchStatus.Match, set_id := 1, rom_id := 1 }
    (by decide) (by decide) rfl

/-! # Claim C10: one matcher invocation yields one status -/

/-- C10: all entries of a single matcher result carry the same status, so
all match rows inserted for a file in one scan of that file share one
status. -/
theorem c10_uniform_status (roms : List RomRecord) (dat : Nat) (filename : String)
    (file_size : Nat) (hash : String) (sets : List Nat) (ms : List FileMatch)
    (hms : match_roms roms dat filename file_size hash sets = some ms) :
    ∀ m1 ∈ ms, ∀ m2 ∈ ms, m1.status = m2.status := by
  rcases match_roms_shape roms dat filename file_size hash sets ms hms with
    ⟨_, hall⟩ | ⟨_, hall⟩ | ⟨_, hall⟩ <;>
    · intro m1 h1 m2 h2
      rw [hall m1 h1, hall m2 h2]

/-- C10 witness: a two-set catalog whose shared hash yields two hash-only
entries; the two concrete entries of that one invocation have equal
status. -/
theorem c10_uniform_status_witness :
    FileMatch.status { status := MatchStatus.Hash, set_id := 1, rom_id := 1 } =
      FileMatch.status { status := MatchStatus.Hash, set_id := 2, rom_id := 2 } :=
  c10_uniform_status
    [{ id := 1, dat_id := 1, set_id := 1, name := ("x"), size := 1, hash := ("h") },
     { id := 2, dat_id := 1, set_id := 2, name := ("y"), size := 1, hash := ("h") }]
    1 ("z") 1 ("h") []
    [{ status := MatchStatus.Hash, set_id := 1, rom_id := 1 },
     { status := MatchStatus.Hash, set_id := 2, rom_id := 2 }]
    (by decide)
    { status := MatchStatus.Hash, set_id := 1, rom_id := 1 } (by decide)
    { status := MatchStatus.Hash, set_id := 2, rom_id := 2 } (by decide)

/-! # Claim C1: the name-only fallback

The claim asserts that the name-only fallback applies whenever the
allowed-sets filter empties the hash-candidate list.  In the source the
fallback is taken only when the hash-candidate list itself is empty; when
hash candidates exist but the filter discards them all the matcher returns
None. -/

/-- C1 counterexample: rom a (hash h1, set 1) and rom b (hash h2, set 2) in
dat 1; the file is named a with hash h2 and allowed_sets is only set 1.
There is no exact match, hash candidates exist, the filter discards them
all, and a name candidate survives the filter, yet the matcher returns
None instead of the claimed name-only result. -/
theorem c1_step4_counterexample :
    RomRecord.get_by_hash romsC1 1 ("h2") ≠ [] ∧
    (RomRecord.get_by_hash romsC1 1 ("h2")).filter (fun r => List.contains [1] r.set_id) = [] ∧
    (RomRecord.find_by_name romsC1 1 ("a") true).filter (fun r => List.contains [1] r.set_id) ≠ [] ∧
    match_exact 1 ("h2") [1] (RomRecord.find_by_name romsC1 1 ("a") true) = none ∧
    match_roms romsC1 1 ("a") 1 ("h2") [1] = none := by
  decide

/-- C1 as amended: with no exact match and a non-empty allowed_sets, when
hash candidates exist but filtering them by allowed_sets leaves no
survivor the matcher returns None; the name-only fallback fires only when
no rom of the dat has the hash at all, and then it returns one Name entry
per surviving name candidate via match_names. -/
theorem c1_step4_amended (roms : List RomRecord) (dat : Nat) (filename : String)
    (file_size : Nat) (hash : String) (sets : List Nat)
    (hsets : sets ≠ [])
    (hex : match_exact file_size hash sets (RomRecord.find_by_name roms dat filename true) = none) :
    (RomRecord.get_by_hash roms dat hash ≠ [] →
      (RomRecord.get_by_hash roms dat hash).filter (fun r => sets.contains r.set_id) = [] →
      match_roms roms dat filename file_size hash sets = none) ∧
    (RomRecord.get_by_hash roms dat hash = [] →
      match_roms roms dat filename file_size hash sets =
        match_names sets (RomRecord.find_by_name roms dat filename true)) := by
  have hbranch : (if (RomRecord.find_by_name roms dat filename true).isEmpty then none
      else match_exact file_size hash sets (RomRecord.find_by_name roms dat filename true)) =
      (none : Option (List FileMatch)) := by
    split
    · rfl
    · exact hex
  have hmr : match_roms roms dat filename file_size hash sets =
      (if (RomRecord.get_by_hash roms dat hash).isEmpty then
        match_names sets (RomRecord.find_by_name roms dat filename true)
      else match_hashes sets (RomRecord.get_by_hash roms dat hash)) := by
    unfold match_roms
    dsimp only
    rw [hbranch]
  have hsetsEmp : sets.isEmpty = false := by
    cases sets with
    | nil => exact absurd rfl hsets
    | cons a l => rfl
  constructor
  · intro hne hfilter
    have hnotemp : ¬ (RomRecord.get_by_hash roms dat hash).isEmpty = true := by
      intro hcontra
      exact hne (List.isEmpty_iff.mp hcontra)
    rw [hmr, if_neg hnotemp]
    unfold match_hashes
    dsimp only
    have hfilter2 : (RomRecord.get_by_hash roms dat hash).filter
        (fun rom => sets.isEmpty || sets.contains rom.set_id) = [] := by
      rw [← hfilter]
      apply List.filter_congr
      intro r _
      rw [hsetsEmp, Bool.false_or]
    rw [hfilter2]
    simp
  · intro hemp
    rw [hmr, hemp]
    simp

/-- C1 witness for the amended claim, at the counterexample input. -/
theorem c1_step4_amended_witness :
    match_roms romsC1 1 ("a") 1 ("h2") [1] = none :=
  (c1_step4_amended romsC1 1 ("a") 1 ("h2") [1] (by decide) (by decide)).1
    (by decide) (by decide)

/-! # Claim C2: the remove cascade

main.rs delete_dat deletes files, dirs, roms, sets and the dat row but
issues no DELETE on the matches relation (update_dat does, via
MatchRecord::delete_by_dat, so the cascade was clearly intended).  In the
plain DELETE model the match rows of the removed dat survive with dangling
references; under SQLite foreign-key enforcement the file DELETE would
instead abort, so remove could never complete on a dat with matches.
Either way the claimed cascade fails. -/

/-- C2: removing dat 1 from a store holding one match empties every other
relation but leaves the match row, which still references the removed dat,
file, set and rom. -/
theorem c2_remove_cascade_bug :
    refIntegrityB storeC2 = true ∧
    (delete_dat storeC2 1).dats = [] ∧
    (delete_dat storeC2 1).dirs = [] ∧
    (delete_dat storeC2 1).files = [] ∧
    (delete_dat storeC2 1).roms = [] ∧
    (delete_dat storeC2 1).sets = [] ∧
    (delete_dat storeC2 1).matchRows = storeC2.matchRows ∧
    storeC2.matchRows ≠ [] := by
  decide

/-! # Claim C3: referential integrity across operations

The invariant holds before the remove and is destroyed by it, for the same
missing match cascade as C2: after delete_dat the surviving match row
references a file, set, rom and dat that no longer exist. -/

/-- C3: a store satisfying referential integrity stops satisfying it after
remove, because delete_dat leaves the match rows behind. -/
theorem c3_integrity_remove_bug :
    refIntegrityB storeC3 = true ∧ refIntegrityB (delete_dat storeC3 2) = false := by
  decide

/-! # Claim C4: find_by_name with exact = false

The non-exact branch runs name LIKE (percent query percent); SQLite LIKE
compares ASCII letters case-insensitively, so the claimed case-sensitive
substring semantics is wrong.  The ordering half of the claim holds. -/

/-- C4 counterexample: the record named ABC is returned for the query abc,
although ABC does not contain abc as a substring under case-sensitive
comparison, so the code result differs from the spec-described result. -/
theorem c4_case_sensitivity_counterexample :
    SetRecord.find_by_name setsC4 1 ("abc") false = setsC4 ∧
    findByNameSpecCS (fun r : SetRecord => r.dat_id) (fun r => r.name) setsC4 1 ("abc") = [] ∧
    SetRecord.find_by_name setsC4 1 ("abc") false ≠
      findByNameSpecCS (fun r : SetRecord => r.dat_id) (fun r => r.name) setsC4 1 ("abc") := by
  decide

/-- C4 as amended: for every name-searchable entity and every wildcard-free
query, find_by_name with exact = false returns exactly the records of the
scope whose name contains the query as a substring under ASCII-case-
insensitive comparison, and the result is ordered by name ascending in
both the exact and the non-exact mode. -/
theorem c4_find_by_name_amended (scopeOf : α → Nat) (nameOf : α → String)
    (recs : List α) (scope : Nat) (q : String) (r : α) (hq : noMeta q.data) :
    (r ∈ findByNameG scopeOf nameOf recs scope q false ↔
        r ∈ recs ∧ scopeOf r = scope ∧ containsCI q.data (nameOf r).data = true) ∧
    (findByNameG scopeOf nameOf recs scope q false).Pairwise
      (fun a b => strLe (nameOf a) (nameOf b) = true) ∧
    (findByNameG scopeOf nameOf recs scope q true).Pairwise
      (fun a b => strLe (nameOf a) (nameOf b) = true) := by
  refine ⟨mem_findByNameG scopeOf nameOf recs scope q hq r, ?_, ?_⟩
  · unfold findByNameG
    simp only [Bool.false_eq_true, if_false]
    exact pairwise_sortBy _ (fun x y => strLe_total (nameOf x) (nameOf y))
      (fun x y z hxy hyz => strLe_trans (nameOf x) (nameOf y) (nameOf z) hxy hyz) _
  · unfold findByNameG
    rw [if_pos rfl]
    exact pairwise_sortBy _ (fun x y => strLe_total (nameOf x) (nameOf y))
      (fun x y z hxy hyz => strLe_trans (nameOf x) (nameOf y) (nameOf z) hxy hyz) _

/-- C4 witness: the amended statement at the set table of the
counterexample with the query B. -/
theorem c4_find_by_name_amended_witness :
    ({ id := 1, dat_id := 1, name := ("ABC") } ∈
        findByNameG (fun r : SetRecord => r.dat_id) (fun r => r.name) setsC4 1 ("B") false ↔
      ({ id := 1, dat_id := 1, name := ("ABC") } : SetRecord) ∈ setsC4 ∧ (1 : Nat) = 1 ∧
        containsCI ("B").data (("ABC") : String).data = true) ∧
    (findByNameG (fun r : SetRecord => r.dat_id) (fun r => r.name) setsC4 1 ("B") false).Pairwise
      (fun a b => strLe a.name b.name = true) ∧
    (findByNameG (fun r : SetRecord => r.dat_id) (fun r => r.name) setsC4 1 ("B") true).Pairwise
      (fun a b => strLe a.name b.name = true) :=
  c4_find_by_name_amended (fun r : SetRecord => r.dat_id) (fun r => r.name) setsC4 1 ("B")
    { id := 1, dat_id := 1, name := ("ABC") } (by decide)

/-! # Claim C9: the per-archive savepoint -/

/-- C9: when any error occurs inside scan_zip_file (zip open failure,
member read failure, hash failure or a missing archive file name), the
savepoint wrapper of scan_directory returns the store unchanged, so no
dir, file or match row of that archive persists, and the walk over the
sibling entries continues from the unchanged store so the outer scan
transaction still reaches its commit. -/
theorem c9_zip_savepoint (s : Store) (dat : Nat) (path : String) (incremental : Bool)
    (exclude : List String) (parentId : Nat) (zip : ZipSource)
    (herr : (scan_zip_file_raw s dat path incremental exclude parentId zip).2 = Except.error ()) :
    scan_zip_step s dat path incremental exclude parentId zip = (s, 0) ∧
    (scan_zip_step s dat path incremental exclude parentId zip).1.dirs = s.dirs ∧
    (scan_zip_step s dat path incremental exclude parentId zip).1.files = s.files ∧
    (scan_zip_step s dat path incremental exclude parentId zip).1.matchRows = s.matchRows ∧
    ∀ rest count, scan_zip_entries dat incremental exclude parentId
        ({ path := path, zip := zip } :: rest) s count =
      scan_zip_entries dat incremental exclude parentId rest s count := by
  have hstep : scan_zip_step s dat path incremental exclude parentId zip = (s, 0) := by
    unfold scan_zip_step
    rcases hraw : scan_zip_file_raw s dat path incremental exclude parentId zip with ⟨s1, res⟩
    rw [hraw] at herr
    cases res with
    | ok n => exact absurd herr (by simp)
    | error e => rfl
  refine ⟨hstep, by rw [hstep], by rw [hstep], by rw [hstep], ?_⟩
  intro rest count
  have hone : scan_zip_entries dat incremental exclude parentId
      ({ path := path, zip := zip } :: rest) s count =
      scan_zip_entries dat incremental exclude parentId rest
        (scan_zip_step s dat path incremental exclude parentId zip).1
        (count + (scan_zip_step s dat path incremental exclude parentId zip).2) := rfl
  rw [hone, hstep]
  rw [Nat.add_zero]

/-- C9 witness: an archive whose first member scans (the raw scan really
writes a dir and a file) and whose second member fails to read; the
savepoint step nevertheless returns the untouched store. -/
theorem c9_zip_savepoint_witness :
    (scan_zip_file_raw storeC9 1 ("/r/G1.zip") false [] 5 zipC9).2 = Except.error () ∧
    (scan_zip_file_raw storeC9 1 ("/r/G1.zip") false [] 5 zipC9).1.files ≠ storeC9.files ∧
    scan_zip_step storeC9 1 ("/r/G1.zip") false [] 5 zipC9 = (storeC9, 0) :=
  ⟨rfl, by decide,
    (c9_zip_savepoint storeC9 1 ("/r/G1.zip") false [] 5 zipC9 rfl).1⟩

/-! # Claim C7: the size round-trip -/

theorem parseU64Step_digit (a d : Nat) (hd : d < 10) :
    parseU64Step (some a) (Char.ofNat (48 + d)) =
      if a * 10 + d < U64SIZE then some (a * 10 + d) else none := by
  interval_cases d <;> rfl

theorem valFold_ge (ds : List Nat) : ∀ a, a ≤ valFold a ds := by
  induction ds with
  | nil => intro a; exact Nat.le_refl a
  | cons d ds ih =>
    intro a
    have h1 : a ≤ a * 10 + d := by omega
    exact h1.trans (ih (a * 10 + d))

theorem valFold_eq (ds : List Nat) :
    ∀ a, valFold a ds = a * 10 ^ ds.length + Nat.ofDigits 10 ds.reverse := by
  induction ds with
  | nil => intro a; simp [valFold, Nat.ofDigits]
  | cons d ds ih =>
    intro a
    have h1 : valFold a (d :: ds) = valFold (a * 10 + d) ds := rfl
    rw [h1, ih (a * 10 + d)]
    have h2 : (d :: ds).reverse = ds.reverse ++ [d] := by simp
    rw [h2, Nat.ofDigits_append]
    simp only [List.length_reverse, List.length_cons, Nat.ofDigits_singleton]
    ring

theorem parse_fold_ok (ds : List Nat) :
    ∀ a, (∀ d ∈ ds, d < 10) → valFold a ds < U64SIZE →
      List.foldl parseU64Step (some a) (ds.map fun d => Char.ofNat (48 + d)) =
        some (valFold a ds) := by
  induction ds with
  | nil => intro a _ _; rfl
  | cons d ds ih =>
    intro a hds hbound
    have hd : d < 10 := hds d (by simp)
    have hbound2 : valFold (a * 10 + d) ds < U64SIZE := hbound
    have hlt : a * 10 + d < U64SIZE :=
      Nat.lt_of_le_of_lt (valFold_ge ds (a * 10 + d)) hbound2
    simp only [List.map_cons, List.foldl_cons]
    rw [parseU64Step_digit a d hd, if_pos hlt]
    exact ih (a * 10 + d) (fun x hx => hds x (by simp [hx])) hbound2

/-- C7: writing a u64 size through the store encoding (decimal string) and
parsing it back yields the value again, for every value below 2 to the 64. -/
theorem c7_size_roundtrip (n : Nat) (h : n < U64SIZE) : parseU64 (sizeToSql n) = some n := by
  by_cases h0 : n = 0
  · subst h0; rfl
  · have hL : Nat.digits 10 n ≠ [] := Nat.digits_ne_nil_iff_ne_zero.mpr h0
    have hdig : ∀ d ∈ (Nat.digits 10 n).reverse, d < 10 := by
      intro d hd
      exact Nat.digits_lt_base (by norm_num) (List.mem_reverse.mp hd)
    have hdata : (sizeToSql n).data =
        ((Nat.digits 10 n).reverse).map (fun d => Char.ofNat (48 + d)) := by
      unfold sizeToSql
      rw [if_neg h0]
      simp [List.map_reverse]
    have hval : valFold 0 (Nat.digits 10 n).reverse = n := by
      rw [valFold_eq]
      simp [Nat.ofDigits_digits]
    obtain ⟨m, M, hM⟩ : ∃ m M, (Nat.digits 10 n).reverse = m :: M := by
      cases hrev : (Nat.digits 10 n).reverse with
      | nil => exact absurd (List.reverse_eq_nil_iff.mp hrev) hL
      | cons m M => exact ⟨m, M, rfl⟩
    have hm10 : m < 10 := hdig m (by rw [hM]; simp)
    unfold parseU64
    rw [hdata, hM]
    simp only [List.map_cons]
    have hplus : Char.ofNat (48 + m) ≠ '+' := by
      interval_cases m <;> decide
    rw [if_neg hplus]
    have hne : (Char.ofNat (48 + m) :: List.map (fun d => Char.ofNat (48 + d)) M).isEmpty = false := rfl
    rw [hne]
    simp only [Bool.false_eq_true, if_false]
    have := parse_fold_ok ((Nat.digits 10 n).reverse) 0 hdig (by rw [hval]; exact h)
    rw [hM] at this
    simp only [List.map_cons] at this
    rw [this]
    rw [hM] at hval
    rw [hval]

/-- C7 witness: the round-trip at the largest u64 value. -/
theorem c7_size_roundtrip_witness :
    parseU64 (sizeToSql 18446744073709551615) = some 18446744073709551615 :=
  c7_size_roundtrip 18446744073709551615 (by norm_num [U64SIZE])

/-! # Claim C8: required header fields -/

theorem headerStep_name (acc : HeaderAcc) (c : XmlHeaderChild) :
    (headerStep acc c).name = if c.tag = ("name") then c.text else acc.name := by
  by_cases h1 : c.tag = ("name") <;> by_cases h2 : c.tag = ("description") <;>
    by_cases h3 : c.tag = ("version") <;> by_cases h4 : c.tag = ("author") <;>
    simp [headerStep, h1, h2, h3, h4]

theorem headerStep_description (acc : HeaderAcc) (c : XmlHeaderChild) :
    (headerStep acc c).description = if c.tag = ("description") then c.text else acc.description := by
  by_cases h1 : c.tag = ("name") <;> by_cases h2 : c.tag = ("description") <;>
    by_cases h3 : c.tag = ("version") <;> by_cases h4 : c.tag = ("author") <;>
    simp [headerStep, h1, h2, h3, h4]

theorem headerStep_version (acc : HeaderAcc) (c : XmlHeaderChild) :
    (headerStep acc c).version = if c.tag = ("version") then c.text else acc.version := by
  by_cases h1 : c.tag = ("name") <;> by_cases h2 : c.tag = ("description") <;>
    by_cases h3 : c.tag = ("version") <;> by_cases h4 : c.tag = ("author") <;>
    simp [headerStep, h1, h2, h3, h4]

theorem headerStep_author (acc : HeaderAcc) (c : XmlHeaderChild) :
    (headerStep acc c).author = if c.tag = ("author") then c.text else acc.author := by
  by_cases h1 : c.tag = ("name") <;> by_cases h2 : c.tag = ("description") <;>
    by_cases h3 : c.tag = ("version") <;> by_cases h4 : c.tag = ("author") <;>
    simp [headerStep, h1, h2, h3, h4]

theorem foldl_header_none (proj : HeaderAcc → Option String) (tag : String)
    (hstep : ∀ acc c, proj (headerStep acc c) = if c.tag = tag then c.text else proj acc) :
    ∀ (cs : List XmlHeaderChild) (acc : HeaderAcc),
      (∀ c ∈ cs, c.tag = tag → c.text = none) → proj acc = none →
      proj (List.foldl headerStep acc cs) = none := by
  intro cs
  induction cs with
  | nil => intro acc _ h; exact h
  | cons c cs ih =>
    intro acc hall hacc
    rw [List.foldl_cons]
    apply ih
    · intro x hx hxt
      exact hall x (by simp [hx]) hxt
    · rw [hstep]
      by_cases h : c.tag = tag
      · rw [if_pos h]
        exact hall c (by simp) h
      · rw [if_neg h]
        exact hacc

theorem foldl_header_some (proj : HeaderAcc → Option String) (tag : String)
    (hstep : ∀ acc c, proj (headerStep acc c) = if c.tag = tag then c.text else proj acc) :
    ∀ (cs : List XmlHeaderChild) (acc : HeaderAcc) (x : String),
      proj (List.foldl headerStep acc cs) = some x →
      (∃ c ∈ cs, c.tag = tag ∧ c.text = some x) ∨ proj acc = some x := by
  intro cs
  induction cs with
  | nil => intro acc x h; exact Or.inr h
  | cons c cs ih =>
    intro acc x h
    rw [List.foldl_cons] at h
    rcases ih _ x h with ⟨c2, hc2, ht, hx⟩ | hacc
    · exact Or.inl ⟨c2, by simp [hc2], ht, hx⟩
    · rw [hstep] at hacc
      by_cases hc : c.tag = tag
      · rw [if_pos hc] at hacc
        exact Or.inl ⟨c, by simp, hc, hacc⟩
      · rw [if_neg hc] at hacc
        exact Or.inr hacc

theorem presentB_false_iff (cs : List XmlHeaderChild) (t : String) :
    presentB cs t = false ↔ ∀ c ∈ cs, c.tag = t → c.text = none := by
  unfold presentB
  rw [List.any_eq_false]
  constructor
  · intro hall c hc ht
    have := hall c hc
    simp only [Bool.and_eq_true, beq_iff_eq, not_and] at this
    rcases hx : c.text with _ | v
    · rfl
    · exact absurd (by rw [hx]; rfl) (this ht)
  · intro hall c hc
    simp only [Bool.and_eq_true, beq_iff_eq, not_and]
    intro ht
    rw [hall c hc ht]
    simp

theorem presentB_true_of (cs : List XmlHeaderChild) (t : String) (c : XmlHeaderChild)
    (x : String) (h1 : c ∈ cs) (h2 : c.tag = t) (h3 : c.text = some x) :
    presentB cs t = true := by
  unfold presentB
  rw [List.any_eq_true]
  exact ⟨c, h1, by simp [h2, h3]⟩

/-- C8: with the header element present, import fails whenever any of the
four required text children name, description, version, author is absent
(and the transaction rollback leaves the store without the dat row,
modelled by the None result), and import creates the dat only when all
four are present. -/
theorem c8_header_required (s : Store) (doc : XmlDoc) (cs : List XmlHeaderChild)
    (hdr : doc.header = some cs) :
    ((presentB cs ("name") = false ∨ presentB cs ("description") = false ∨
      presentB cs ("version") = false ∨ presentB cs ("author") = false) →
      importDat s doc = none) ∧
    (∀ r, importDat s doc = some r →
      presentB cs ("name") = true ∧ presentB cs ("description") = true ∧
      presentB cs ("version") = true ∧ presentB cs ("author") = true) := by
  have hinit : parseHeaderFields cs = List.foldl headerStep
      { name := none, description := none, version := none, author := none } cs := rfl
  constructor
  · intro hmiss
    unfold importDat parse_dat_file
    rw [hdr]
    dsimp only
    rcases hmiss with hm | hm | hm | hm
    · have hnone : (parseHeaderFields cs).name = none := by
        rw [hinit]
        exact foldl_header_none _ _ headerStep_name cs _ ((presentB_false_iff cs _).mp hm) rfl
      rw [hnone]
      exact rfl
    · have hnone : (parseHeaderFields cs).description = none := by
        rw [hinit]
        exact foldl_header_none _ _ headerStep_description cs _
          ((presentB_false_iff cs _).mp hm) rfl
      rcases h1 : (parseHeaderFields cs).name with _ | n
      · rfl
      · rw [hnone]
        exact rfl
    · have hnone : (parseHeaderFields cs).version = none := by
        rw [hinit]
        exact foldl_header_none _ _ headerStep_version cs _
          ((presentB_false_iff cs _).mp hm) rfl
      rcases h1 : (parseHeaderFields cs).name with _ | n
      · rfl
      · rcases h2 : (parseHeaderFields cs).description with _ | d
        · rfl
        · rw [hnone]
          exact rfl
    · have hnone : (parseHeaderFields cs).author = none := by
        rw [hinit]
        exact foldl_header_none _ _ headerStep_author cs _
          ((presentB_false_iff cs _).mp hm) rfl
      rcases h1 : (parseHeaderFields cs).name with _ | n
      · rfl
      · rcases h2 : (parseHeaderFields cs).description with _ | d
        · rfl
        · rcases h3 : (parseHeaderFields cs).version with _ | v
          · rfl
          · rw [hnone]
            exact rfl
  · intro r h
    unfold importDat at h
    rcases Option.map_eq_some'.mp h with ⟨pd, hpd, _⟩
    unfold parse_dat_file at hpd
    rw [hdr] at hpd
    dsimp only at hpd
    rcases h1 : (parseHeaderFields cs).name with _ | n
    · rw [h1] at hpd; exact absurd hpd (by simp)
    · rw [h1] at hpd
      rcases h2 : (parseHeaderFields cs).description with _ | d
      · rw [h2] at hpd; exact absurd hpd (by simp)
      · rw [h2] at hpd
        rcases h3 : (parseHeaderFields cs).version with _ | v
        · rw [h3] at hpd; exact absurd hpd (by simp)
        · rw [h3] at hpd
          rcases h4 : (parseHeaderFields cs).author with _ | a
          · rw [h4] at hpd; exact absurd hpd (by simp)
          · rw [hinit] at h1 h2 h3 h4
            have e1 := foldl_header_some _ _ headerStep_name cs _ n h1
            have e2 := foldl_header_some _ _ headerStep_description cs _ d h2
            have e3 := foldl_header_some _ _ headerStep_version cs _ v h3
            have e4 := foldl_header_some _ _ headerStep_author cs _ a h4
            rcases e1.resolve_right (by simp) with ⟨c1, hc1, ht1, hx1⟩
            rcases e2.resolve_right (by simp) with ⟨c2, hc2, ht2, hx2⟩
            rcases e3.resolve_right (by simp) with ⟨c3, hc3, ht3, hx3⟩
            rcases e4.resolve_right (by simp) with ⟨c4, hc4, ht4, hx4⟩
            exact ⟨presentB_true_of cs _ c1 n hc1 ht1 hx1,
                   presentB_true_of cs _ c2 d hc2 ht2 hx2,
                   presentB_true_of cs _ c3 v hc3 ht3 hx3,
                   presentB_true_of cs _ c4 a hc4 ht4 hx4⟩

/-- C8 witness: importing a document whose header lacks the author child
fails. -/
theorem c8_header_required_witness : importDat emptyStore docC8 = none :=
  (c8_header_required emptyStore docC8
      [{ tag := ("name"), text := some ("X") },
       { tag := ("description"), text := some ("d") },
       { tag := ("version"), text := some ("1") }] rfl).1
    (Or.inr (Or.inr (Or.inr (by decide))))

/-! # Claim C5: the stored rom hash

parse_dat_file stores the sha1 attribute string verbatim
(rom_hash.to_string() with no case normalization), not the claimed
lowercase-normalized form. -/

theorem parseRomNode_sha1 (r : XmlRom) (pr : ParsedRom)
    (h : parseRomNode r = some pr) : r.sha1 = some pr.hash := by
  unfold parseRomNode at h
  rcases hn : r.name with _ | n <;> rw [hn] at h
  · exact absurd h (by simp)
  · rcases hs : r.size with _ | sz <;> rw [hs] at h
    · exact absurd h (by simp)
    · rcases hh : r.sha1 with _ | hh0 <;> rw [hh] at h
      · exact absurd h (by simp)
      · simp only [Option.bind_eq_bind, Option.some_bind, Option.pure_def] at h
        rcases hp : parseU64 sz with _ | v <;> rw [hp] at h
        · exact absurd h (by simp)
        · simp only [Option.some_bind, Option.some_inj] at h
          subst h
          rfl

theorem parseRoms_mem (rs : List XmlRom) :
    ∀ (prs : List ParsedRom), parseRoms rs = some prs →
      ∀ pr ∈ prs, ∃ r ∈ rs, parseRomNode r = some pr := by
  induction rs with
  | nil =>
    intro prs h pr hpr
    unfold parseRoms at h
    rcases Option.some_injective _ h with rfl
    exact absurd hpr (by simp)
  | cons r rs ih =>
    intro prs h pr hpr
    unfold parseRoms at h
    rcases hr : parseRomNode r with _ | pr0 <;> rw [hr] at h
    · exact absurd h (by simp)
    · rcases hrest : parseRoms rs with _ | rest <;> rw [hrest] at h
      · exact absurd h (by simp)
      · simp only [Option.bind_eq_bind, Option.some_bind, Option.pure_def, Option.some_inj] at h
        subst h
        rcases List.mem_cons.mp hpr with rfl | hmem
        · exact ⟨r, by simp, hr⟩
        · rcases ih rest hrest pr hmem with ⟨r2, hr2, hp2⟩
          exact ⟨r2, by simp [hr2], hp2⟩

theorem parseGameNode_roms (g : XmlGame) (pg : ParsedGame)
    (h : parseGameNode g = some pg) : parseRoms g.roms = some pg.roms := by
  unfold parseGameNode at h
  rcases hn : g.name with _ | n <;> rw [hn] at h
  · exact absurd h (by simp)
  · rcases hr : parseRoms g.roms with _ | prs <;> rw [hr] at h
    · exact absurd h (by simp)
    · simp only [Option.bind_eq_bind, Option.some_bind, Option.pure_def, Option.some_inj] at h
      subst h
      rfl

theorem parseGames_mem (gs : List XmlGame) :
    ∀ (pgs : List ParsedGame), parseGames gs = some pgs →
      ∀ pg ∈ pgs, ∃ g ∈ gs, parseGameNode g = some pg := by
  induction gs with
  | nil =>
    intro pgs h pg hpg
    unfold parseGames at h
    rcases Option.some_injective _ h with rfl
    exact absurd hpg (by simp)
  | cons g gs ih =>
    intro pgs h pg hpg
    unfold parseGames at h
    rcases hg : parseGameNode g with _ | pg0 <;> rw [hg] at h
    · exact absurd h (by simp)
    · rcases hrest : parseGames gs with _ | rest <;> rw [hrest] at h
      · exact absurd h (by simp)
      · simp only [Option.bind_eq_bind, Option.some_bind, Option.pure_def, Option.some_inj] at h
        subst h
        rcases List.mem_cons.mp hpg with rfl | hmem
        · exact ⟨g, by simp, hg⟩
        · rcases ih rest hrest pg hmem with ⟨g2, hg2, hp2⟩
          exact ⟨g2, by simp [hg2], hp2⟩

theorem roms_of_romFold (datId setId : Nat) (prs : List ParsedRom) :
    ∀ (st : Store) (r : RomRecord),
      r ∈ (prs.foldl (insertRomRow datId setId) st).roms →
      r ∈ st.roms ∨ ∃ pr ∈ prs, r.hash = pr.hash := by
  induction prs with
  | nil => intro st r h; exact Or.inl h
  | cons pr prs ih =>
    intro st r h
    rw [List.foldl_cons] at h
    rcases ih (insertRomRow datId setId st pr) r h with hmem | ⟨pr2, hpr2, hh⟩
    · unfold insertRomRow at hmem
      simp only [List.mem_append, List.mem_singleton] at hmem
      rcases hmem with hmem | rfl
      · exact Or.inl hmem
      · exact Or.inr ⟨pr, by simp, rfl⟩
    · exact Or.inr ⟨pr2, by simp [hpr2], hh⟩

theorem roms_of_gameFold (datId : Nat) (games : List ParsedGame) :
    ∀ (st : Store) (r : RomRecord),
      r ∈ (games.foldl (insertGameRows datId) st).roms →
      r ∈ st.roms ∨ ∃ g ∈ games, ∃ pr ∈ g.roms, r.hash = pr.hash := by
  induction games with
  | nil => intro st r h; exact Or.inl h
  | cons g games ih =>
    intro st r h
    rw [List.foldl_cons] at h
    rcases ih (insertGameRows datId st g) r h with hmem | ⟨g2, hg2, pr, hpr, hh⟩
    · unfold insertGameRows at hmem
      rcases roms_of_romFold datId st.nextId g.roms _ r hmem with hmem2 | ⟨pr, hpr, hh⟩
      · exact Or.inl hmem2
      · exact Or.inr ⟨g, by simp, pr, hpr, hh⟩
    · exact Or.inr ⟨g2, by simp [hg2], pr, hpr, hh⟩

theorem parse_dat_file_games (doc : XmlDoc) (pd : DatRecord × List ParsedGame)
    (h : parse_dat_file doc = some pd) : parseGames doc.games = some pd.2 := by
  unfold parse_dat_file at h
  rcases hh : doc.header with _ | cs <;> rw [hh] at h
  · exact absurd h (by simp)
  · dsimp only at h
    rcases h1 : (parseHeaderFields cs).name with _ | n <;> rw [h1] at h
    · exact absurd h (by simp)
    · rcases h2 : (parseHeaderFields cs).description with _ | d <;> rw [h2] at h
      · exact absurd h (by simp)
      · rcases h3 : (parseHeaderFields cs).version with _ | v <;> rw [h3] at h
        · exact absurd h (by simp)
        · rcases h4 : (parseHeaderFields cs).author with _ | a <;> rw [h4] at h
          · exact absurd h (by simp)
          · rcases hg : parseGames doc.games with _ | games <;> rw [hg] at h
            · exact absurd h (by simp)
            · rcases Option.some_injective _ h with rfl
              rfl

/-- C5 counterexample: importing a catalog whose rom sha1 attribute is the
upper-case string ABCD stores the hash ABCD, which differs from its
lowercase-normalized form, contradicting the claimed normalization. -/
theorem c5_lowercase_counterexample :
    importDat emptyStore docC5 = some (storeC5out, 0) ∧
    storeC5out.roms = [romC5] ∧
    romC5.hash = ("ABCD") ∧
    lowerNormalized ("ABCD") ≠ ("ABCD") := by
  decide

/-- C5 as amended: the hash persisted for every imported rom is the sha1
attribute string exactly as it appears in the catalog XML; no case
normalization is applied, so upper-case hex digits are stored upper-case. -/
theorem c5_hash_verbatim (s : Store) (doc : XmlDoc) (s' : Store) (datId : Nat)
    (r : RomRecord) (himp : importDat s doc = some (s', datId)) (hr : r ∈ s'.roms) :
    r ∈ s.roms ∨ ∃ g ∈ doc.games, ∃ x ∈ g.roms, x.sha1 = some r.hash := by
  unfold importDat at himp
  rcases Option.map_eq_some'.mp himp with ⟨pd, hpd, hins⟩
  have hs' : s' = (insertParsed s pd.1 pd.2).1 := by rw [hins]
  subst hs'
  unfold insertParsed at hr
  dsimp only at hr
  rcases roms_of_gameFold s.nextId pd.2 _ r hr with hmem | ⟨pg, hpg, pr, hpr, hh⟩
  · exact Or.inl hmem
  · have hgames := parse_dat_file_games doc pd hpd
    rcases parseGames_mem doc.games pd.2 hgames pg hpg with ⟨g, hg, hpg2⟩
    have hroms := parseGameNode_roms g pg hpg2
    rcases parseRoms_mem g.roms pg.roms hroms pr hpr with ⟨x, hx, hxp⟩
    have hsha := parseRomNode_sha1 x pr hxp
    exact Or.inr ⟨g, hg, x, hx, by rw [hsha, hh]⟩

/-- C5 witness: the amended statement at the counterexample import. -/
theorem c5_hash_verbatim_witness :
    romC5 ∈ emptyStore.roms ∨ ∃ g ∈ docC5.games, ∃ x ∈ g.roms, x.sha1 = some romC5.hash :=
  c5_hash_verbatim emptyStore docC5 storeC5out 0 romC5 (by decide) (by decide)

/-! # Supporting observations around referential integrity

The scan insert and the update path (including the dir relink) do preserve
the invariant; the violation of C3 is specific to the missing match
cascade of remove. -/

/-- Scanning a file into a dir of its dat preserves referential integrity:
the inserted match rows reference the fresh file, its dir, and a set and
rom of the same dat. -/
theorem insert_preserves_integrity_example :
    refIntegrityB storeIns = true ∧
    refIntegrityB (insert_files_and_matches storeIns 1 30 ("R.bin") 3 ("h") []) = true ∧
    (insert_files_and_matches storeIns 1 30 ("R.bin") 3 ("h") []).matchRows ≠ [] := by
  decide

/-- Updating to a new catalog version rematches the zip file against the
new dat, relinks the dir, removes the old dat and keeps referential
integrity. -/
theorem update_preserves_integrity_example :
    (update_dat storeUpd docUpd 1).map (fun p => refIntegrityB p.1) = some true ∧
    (update_dat storeUpd docUpd 1).map (fun p => p.1.dats.any fun d => d.id == 1) = some false ∧
    (update_dat storeUpd docUpd 1).map (fun p => p.1.matchRows.length) = some 1 := by
  decide

end Rrm
